import Mathlib

/-!
Verification of the rbac-migration repository (Go, package cmd).

This file shallowly embeds the identity-resolution and binding-transformation
pipeline of the repository: the pure string transform cleanEmail, the
identity-mapping construction buildIDMap, the binding transformation
mutateTenantRoleBindings (including its orphan-namespace accounting and its
fatal error branches), and the output-boundary deduplication performed by
writeMigratedRoleBindings.  Go maps are embedded as association lists,
Go slices as lists, and the two process-ending control flows of the
transformation (log.Fatalf on a multi-subject binding, and the runtime
index-out-of-range panic on a binding with zero subjects) as values of an
explicit error type in an Except result.
-/

/-! ## Generic association-list helpers (embedding of Go map operations) -/

/-- Lookup in an association list with String keys: the value of the first
pair whose key matches, as Go map indexing (maps are embedded with unique
keys, so first-match agrees with the map). -/
def alookup {β : Type} : List (String × β) → String → Option β
  | [], _ => none
  | (k1, v) :: rest, k => if k1 = k then some v else alookup rest k

/-- Insertion into an association list, overwriting an existing entry for the
same key (Go map assignment semantics). -/
def insertAL {β : Type} : List (String × β) → String → β → List (String × β)
  | [], k, v => [(k, v)]
  | (k1, v1) :: rest, k, v =>
    if k1 = k then (k, v) :: rest else (k1, v1) :: insertAL rest k v

theorem alookup_eq_none_iff {β : Type} (m : List (String × β)) (k : String) :
    alookup m k = none ↔ k ∉ m.map (fun p => p.1) := by
  induction m with
  | nil => simp [alookup]
  | cons p rest ih =>
    cases p with
    | mk k1 v =>
      by_cases h : k1 = k
      · subst h
        simp [alookup]
      · simp [alookup, h, ih, Ne.symm h]

theorem mem_insertAL {β : Type} (m : List (String × β)) (k : String) (v : β)
    (p : String × β) (hp : p ∈ insertAL m k v) : p ∈ m ∨ p = (k, v) := by
  induction m with
  | nil =>
    simp [insertAL] at hp
    exact Or.inr hp
  | cons q rest ih =>
    cases q with
    | mk k1 v1 =>
      by_cases h : k1 = k
      · subst h
        simp [insertAL] at hp
        rcases hp with hp | hp
        · exact Or.inr (by simp [hp])
        · exact Or.inl (by simp [hp])
      · simp [insertAL, h] at hp
        rcases hp with hp | hp
        · exact Or.inl (by simp [hp])
        · rcases ih hp with h2 | h2
          · exact Or.inl (by simp [h2])
          · exact Or.inr h2

/-! ## String scanning helpers shared by the embedded Go string operations -/

/-- Boolean test that the first list is a prefix of the second. -/
def isPrefixL : List Char → List Char → Bool
  | [], _ => true
  | _ :: _, [] => false
  | a :: ps, b :: bs => a == b && isPrefixL ps bs

/-- Embedding of Go strings.Replace(s, old, nw, 1): replace the first
occurrence of old in s by nw; with an empty old, Go inserts nw in front. -/
def replaceFirstL (old nw : List Char) : List Char → List Char
  | [] => if old.isEmpty then nw else []
  | c :: rest =>
    if isPrefixL old (c :: rest) then nw ++ (c :: rest).drop old.length
    else c :: replaceFirstL old nw rest

/-- String version of replaceFirstL, argument order of Go strings.Replace. -/
def replaceFirstS (s old nw : String) : String :=
  String.mk (replaceFirstL old.data nw.data s.data)

/-! ## cleanEmail

The Go function compiles the regular expression backslash-plus [^@]+ @ and
replaces every match by "@".  A match of that pattern starting at position i
is a plus sign followed by at least one non-at character and then the first
following at sign, so the scan below is an exact embedding: on a plus sign
whose successor exists and is not an at sign and whose suffix contains an at
sign, the whole segment up to and including the first at sign is replaced by
a single at sign and scanning resumes after it; in every other case one
character is copied.  The recursion is fuelled by the input length so the
function is structurally recursive and kernel-evaluable. -/

/-- Suffix strictly after the first at sign, when one exists. -/
def afterFirstAt : List Char → Option (List Char)
  | [] => none
  | c :: rest => if c = '@' then some rest else afterFirstAt rest

/-- Fuelled scanner for the regex replacement of cleanEmail. -/
def cleanGo : Nat → List Char → List Char
  | 0, l => l
  | _ + 1, [] => []
  | n + 1, c :: rest =>
    if c = '+' then
      match rest with
      | [] => ['+']
      | c2 :: _ =>
        if c2 = '@' then '+' :: cleanGo n rest
        else
          match afterFirstAt rest with
          | some after => '@' :: cleanGo n after
          | none => '+' :: cleanGo n rest
    else c :: cleanGo n rest

/-- List-level cleanEmail: the fuel equals the input length. -/
def cleanEmailList (l : List Char) : List Char := cleanGo l.length l

/-- Embedding of the Go function cleanEmail: ReplaceAllString of the pattern
backslash-plus [^@]+ @ by "@". -/
def cleanEmail (email : String) : String := String.mk (cleanEmailList email.data)

theorem afterFirstAt_length_lt (l l2 : List Char)
    (h : afterFirstAt l = some l2) : l2.length < l.length := by
  induction l with
  | nil => simp [afterFirstAt] at h
  | cons c rest ih =>
    by_cases hc : c = '@'
    · simp [afterFirstAt, hc] at h
      subst h
      simp
    · simp [afterFirstAt, hc] at h
      exact Nat.lt_trans (ih h) (by simp)

theorem afterFirstAt_eq_none_iff (l : List Char) :
    afterFirstAt l = none ↔ '@' ∉ l := by
  induction l with
  | nil => simp [afterFirstAt]
  | cons c rest ih =>
    by_cases hc : c = '@'
    · subst hc
      simp [afterFirstAt]
    · simp [afterFirstAt, hc, ih, Ne.symm hc]

theorem afterFirstAt_append (p q : List Char) (hp : '@' ∉ p) :
    afterFirstAt (p ++ '@' :: q) = some q := by
  induction p with
  | nil => simp [afterFirstAt]
  | cons c rest ih =>
    have hc : c ≠ '@' := fun h => hp (h ▸ List.mem_cons_self c rest)
    have hrest : '@' ∉ rest := fun h => hp (List.mem_cons_of_mem c h)
    simp [afterFirstAt, hc, ih hrest]

theorem cleanGo_nil (k : Nat) : cleanGo k [] = [] := by
  cases k <;> rfl

theorem cleanGo_succ_single (k : Nat) (c : Char) :
    cleanGo (k + 1) [c] = if c = '+' then ['+'] else [c] := by
  have h0 : cleanGo (k + 1) [c] = if c = '+' then ['+'] else c :: cleanGo k [] := rfl
  rw [h0, cleanGo_nil]

theorem cleanGo_succ_cons (k : Nat) (c c2 : Char) (rest2 : List Char) :
    cleanGo (k + 1) (c :: c2 :: rest2) =
      if c = '+' then
        (if c2 = '@' then '+' :: cleanGo k (c2 :: rest2)
         else
           match afterFirstAt (c2 :: rest2) with
           | some a2 => '@' :: cleanGo k a2
           | none => '+' :: cleanGo k (c2 :: rest2))
      else c :: cleanGo k (c2 :: rest2) := rfl

theorem cleanGo_fuel (n : Nat) : ∀ (m : Nat) (l : List Char),
    l.length ≤ n → l.length ≤ m → cleanGo n l = cleanGo m l := by
  induction n with
  | zero =>
    intro m l hn _
    have : l = [] := List.length_eq_zero.mp (Nat.le_zero.mp hn)
    subst this
    cases m <;> rfl
  | succ n ih =>
    intro m l hn hm
    cases l with
    | nil => cases m <;> rfl
    | cons c rest =>
      cases m with
      | zero => exact absurd hm (by simp)
      | succ m =>
        have hrn : rest.length ≤ n := by simpa using hn
        have hrm : rest.length ≤ m := by simpa using hm
        cases rest with
        | nil => rw [cleanGo_succ_single n c, cleanGo_succ_single m c]
        | cons c2 rest2 =>
          rw [cleanGo_succ_cons n c c2 rest2, cleanGo_succ_cons m c c2 rest2]
          by_cases hc : c = '+'
          · rw [if_pos hc, if_pos hc]
            by_cases hc2 : c2 = '@'
            · rw [if_pos hc2, if_pos hc2, ih m (c2 :: rest2) hrn hrm]
            · rw [if_neg hc2, if_neg hc2]
              cases hA : afterFirstAt (c2 :: rest2) with
              | some a2 =>
                have hlen := afterFirstAt_length_lt _ _ hA
                simp only [hA]
                rw [ih m a2 (Nat.le_trans (Nat.le_of_lt hlen) hrn)
                  (Nat.le_trans (Nat.le_of_lt hlen) hrm)]
              | none =>
                simp only [hA]
                rw [ih m (c2 :: rest2) hrn hrm]
          · rw [if_neg hc, if_neg hc, ih m (c2 :: rest2) hrn hrm]

theorem cleanEmailList_cons_ne (c : Char) (l : List Char) (h : c ≠ '+') :
    cleanEmailList (c :: l) = c :: cleanEmailList l := by
  cases l with
  | nil =>
    show cleanGo 1 [c] = c :: cleanEmailList []
    rw [cleanGo_succ_single 0 c, if_neg h]
    rfl
  | cons c2 rest2 =>
    show cleanGo (rest2.length + 1 + 1) (c :: c2 :: rest2) = _
    rw [cleanGo_succ_cons (rest2.length + 1) c c2 rest2, if_neg h]
    rfl

theorem cleanEmailList_plus_at (l : List Char) :
    cleanEmailList ('+' :: '@' :: l) = '+' :: '@' :: cleanEmailList l := by
  show cleanGo (l.length + 1 + 1) ('+' :: '@' :: l) = _
  rw [cleanGo_succ_cons (l.length + 1) '+' '@' l, if_pos rfl, if_pos rfl]
  rw [show cleanGo (l.length + 1) ('@' :: l) = cleanEmailList ('@' :: l) from rfl]
  rw [cleanEmailList_cons_ne '@' l (by decide)]

theorem cleanEmailList_plus_match (c2 : Char) (rest2 after : List Char)
    (h : c2 ≠ '@') (h2 : afterFirstAt (c2 :: rest2) = some after) :
    cleanEmailList ('+' :: c2 :: rest2) = '@' :: cleanEmailList after := by
  have hlen := afterFirstAt_length_lt _ _ h2
  show cleanGo (rest2.length + 1 + 1) ('+' :: c2 :: rest2) = _
  rw [cleanGo_succ_cons (rest2.length + 1) '+' c2 rest2, if_pos rfl, if_neg h]
  simp only [h2]
  rw [cleanGo_fuel (rest2.length + 1) after.length after
    (by simpa using Nat.le_of_lt hlen) (Nat.le_refl _)]
  rfl

theorem cleanEmailList_plus_none (rest : List Char)
    (h : afterFirstAt rest = none) :
    cleanEmailList ('+' :: rest) = '+' :: cleanEmailList rest := by
  cases rest with
  | nil => rfl
  | cons c2 rest2 =>
    have hc2 : c2 ≠ '@' := by
      intro hc
      subst hc
      simp [afterFirstAt] at h
    show cleanGo (rest2.length + 1 + 1) ('+' :: c2 :: rest2) = _
    rw [cleanGo_succ_cons (rest2.length + 1) '+' c2 rest2, if_pos rfl, if_neg hc2]
    simp only [h]
    rfl

theorem cleanEmailList_noPlus (l : List Char) (h : '+' ∉ l) :
    cleanEmailList l = l := by
  induction l with
  | nil => rfl
  | cons c rest ih =>
    have hc : c ≠ '+' := fun hc => h (hc ▸ List.mem_cons_self c rest)
    have hrest : '+' ∉ rest := fun hm => h (List.mem_cons_of_mem c hm)
    rw [cleanEmailList_cons_ne c rest hc, ih hrest]

theorem cleanEmailList_noAt (l : List Char) (h : '@' ∉ l) :
    cleanEmailList l = l := by
  induction l with
  | nil => rfl
  | cons c rest ih =>
    have hrest : '@' ∉ rest := fun hm => h (List.mem_cons_of_mem c hm)
    by_cases hc : c = '+'
    · subst hc
      rw [cleanEmailList_plus_none rest ((afterFirstAt_eq_none_iff rest).mpr hrest),
        ih hrest]
    · rw [cleanEmailList_cons_ne c rest hc, ih hrest]

theorem cleanEmailList_idem_fuel (n : Nat) : ∀ (l : List Char), l.length ≤ n →
    cleanEmailList (cleanEmailList l) = cleanEmailList l := by
  induction n with
  | zero =>
    intro l h
    have : l = [] := List.length_eq_zero.mp (Nat.le_zero.mp h)
    subst this
    rfl
  | succ n ih =>
    intro l h
    cases l with
    | nil => rfl
    | cons c rest =>
      have hrest : rest.length ≤ n := by simpa using h
      by_cases hc : c = '+'
      · subst hc
        cases h2 : afterFirstAt rest with
        | none =>
          have hna : '@' ∉ rest := (afterFirstAt_eq_none_iff rest).mp h2
          rw [cleanEmailList_plus_none rest h2, cleanEmailList_noAt rest hna,
            cleanEmailList_plus_none rest h2, cleanEmailList_noAt rest hna]
        | some after =>
          cases rest with
          | nil => simp [afterFirstAt] at h2
          | cons c2 rest2 =>
            by_cases hc2 : c2 = '@'
            · subst hc2
              have h2n : rest2.length ≤ n :=
                Nat.le_trans (Nat.le_succ _) (by simpa using hrest)
              rw [cleanEmailList_plus_at, cleanEmailList_plus_at, ih rest2 h2n]
            · have hlen := afterFirstAt_length_lt _ _ h2
              have han : after.length ≤ n := by
                simp only [List.length_cons] at hlen h
                omega
              rw [cleanEmailList_plus_match c2 rest2 after hc2 h2,
                cleanEmailList_cons_ne '@' _ (by decide), ih after han]
      · rw [cleanEmailList_cons_ne c rest hc, cleanEmailList_cons_ne c _ hc,
          ih rest hrest]

theorem cleanEmailList_idem (l : List Char) :
    cleanEmailList (cleanEmailList l) = cleanEmailList l :=
  cleanEmailList_idem_fuel l.length l (Nat.le_refl _)

theorem cleanEmailList_localTag (loc tag dom : List Char)
    (h1 : '+' ∉ loc) (h2 : '@' ∉ loc) (h3 : tag ≠ []) (h4 : '@' ∉ tag)
    (h5 : '+' ∉ dom) :
    cleanEmailList (loc ++ '+' :: (tag ++ '@' :: dom)) = loc ++ '@' :: dom := by
  induction loc with
  | nil =>
    cases tag with
    | nil => exact absurd rfl h3
    | cons t ts =>
      have ht : t ≠ '@' := fun h => h4 (h ▸ List.mem_cons_self t ts)
      have hA : afterFirstAt ((t :: ts) ++ '@' :: dom) = some dom :=
        afterFirstAt_append (t :: ts) dom h4
      simp only [List.nil_append]
      rw [show (t :: ts) ++ '@' :: dom = t :: (ts ++ '@' :: dom) from rfl] at hA ⊢
      rw [cleanEmailList_plus_match t (ts ++ '@' :: dom) dom ht hA,
        cleanEmailList_noPlus dom h5]
  | cons c cs ih =>
    have hc : c ≠ '+' := fun h => h1 (h ▸ List.mem_cons_self c cs)
    have h1c : '+' ∉ cs := fun hm => h1 (List.mem_cons_of_mem c hm)
    have h2c : '@' ∉ cs := fun hm => h2 (List.mem_cons_of_mem c hm)
    rw [List.cons_append, cleanEmailList_cons_ne c _ hc, ih h1c h2c]
    rfl

/-! ## buildIDMap

The Go function iterates over an UnstructuredList of UserAccount resources.
Each item is a dynamic object; the code reads Object["spec"] asserted to a
map, then spec["propagatedClaims"] asserted to a map, then claims["email"]
asserted to a string, skipping the account (with a log line) when any of the
three steps fails.  Dynamic values are embedded as a small JSON-like type. -/

/-- Dynamic value taken from an unstructured Kubernetes object: a string, a
nested map, or anything else (number, list, bool, nil), which the type
assertions of the Go code reject uniformly. -/
inductive JValue where
  | str (s : String)
  | obj (fields : List (String × JValue))
  | other
deriving Repr

/-- A UserAccount item of the listed UnstructuredList: its metadata name
(returned by GetName) and the dynamic content of its Object map. -/
structure UserAccount where
  name : String
  obj : List (String × JValue)

/-- Go type assertion v.(map[string]interface recovered from the embedding). -/
def asObj : JValue → Option (List (String × JValue))
  | .obj fs => some fs
  | _ => none

/-- Go type assertion v.(string). -/
def asStr : JValue → Option String
  | .str s => some s
  | _ => none

/-- The three nested lookups and type assertions of buildIDMap, returning the
email claim when the account is well formed and none when the Go code would
hit one of its three continue branches (spec not found, claims not found,
email not found). -/
def extractEmail (acct : UserAccount) : Option String :=
  match (alookup acct.obj "spec").bind asObj with
  | none => none
  | some spec =>
    match (alookup spec "propagatedClaims").bind asObj with
    | none => none
    | some claims => (alookup claims "email").bind asStr

/-- Body of the loop of buildIDMap for one account: skip on a malformed
claims structure, apply the transform, and record the result only when it is
nonempty (Go: if id is not the empty string, idMap[name] = id). -/
def buildStep (transform : String → String) (idMap : List (String × String))
    (acct : UserAccount) : List (String × String) :=
  match extractEmail acct with
  | none => idMap
  | some email =>
    let id := transform email
    if id = "" then idMap else insertAL idMap acct.name id

/-- Embedding of the Go function buildIDMap. -/
def buildIDMap (userAccounts : List UserAccount) (transform : String → String) :
    List (String × String) :=
  userAccounts.foldl (buildStep transform) []

/-! ## RBAC data model

Embedding of the parts of rbacv1.RoleBinding that the repository reads or
writes.  ObjectMeta fields are inlined; Labels and Annotations are optional
association lists (Go nil maps are none), ManagedFields is kept abstract as a
list of tokens, and CreationTimestamp is an optional string whose cleared
zero value metav1.Time is none. -/

structure Subject where
  kind : String
  apiGroup : String
  name : String
  ns : String
deriving DecidableEq, Repr

structure RoleRef where
  apiGroup : String
  kind : String
  name : String
deriving DecidableEq, Repr

structure RoleBinding where
  apiVersion : String
  kind : String
  name : String
  ns : String
  labels : Option (List (String × String))
  annotations : Option (List (String × String))
  resourceVersion : String
  uid : String
  creationTimestamp : Option String
  managedFields : List String
  subjects : List Subject
  roleRef : RoleRef
deriving DecidableEq, Repr

/-- The two process-ending branches inside mutateTenantRoleBindings: the
explicit log.Fatalf when a binding has more than one subject, and the Go
runtime panic (index out of range) when Subjects is empty and the unguarded
access Subjects[0] executes. -/
inductive MigrateError where
  | multiSubject (name ns : String)
  | noSubject (name ns : String)
deriving DecidableEq, Repr

/-- First loop statement of mutateTenantRoleBindings: ensure the namespace is
tracked, initialised to zero migrated bindings (Go: if the key is absent,
processedNamespaces[namespace] = 0). -/
def bumpNs (m : List (String × Nat)) (n : String) : List (String × Nat) :=
  if (alookup m n).isSome then m else m ++ [(n, 0)]

/-- Go processedNamespaces[namespace]++ on a tracked namespace. -/
def incrNs (m : List (String × Nat)) (n : String) : List (String × Nat) :=
  m.map (fun p => if p.1 = n then (p.1, p.2 + 1) else p)

/-- The mutation applied to one binding whose subject resolved: replace the
first occurrence of the legacy product token in the role name and the binding
name, then the first occurrence of the legacy subject name by the resolved
identity in the binding name, substitute the subject, force the role kind to
ClusterRole, clear the server-assigned metadata, set the fixed classification
label, and normalise apiVersion and kind. -/
def migrateOne (rb : RoleBinding) (user id : String) : RoleBinding :=
  { rb with
    name := replaceFirstS (replaceFirstS rb.name "appstudio" "konflux") user id,
    subjects :=
      match rb.subjects with
      | [] => []
      | s :: t => { s with name := id } :: t,
    roleRef :=
      { rb.roleRef with
        kind := "ClusterRole",
        name := replaceFirstS rb.roleRef.name "appstudio" "konflux" },
    annotations := none,
    labels := some [("konflux-ci.dev/type", "user")],
    resourceVersion := "",
    uid := "",
    creationTimestamp := none,
    managedFields := [],
    apiVersion := "rbac.authorization.k8s.io/v1",
    kind := "RoleBinding" }

/-- Loop of mutateTenantRoleBindings over the remaining bindings, carrying the
processedNamespaces accumulator.  Returns the migrated list and the final
accumulator, or the error that ends the process. -/
def mutateGo (idMap : List (String × String)) :
    List (String × Nat) → List RoleBinding →
    Except MigrateError (List RoleBinding × List (String × Nat))
  | m, [] => .ok ([], m)
  | m, rb :: rest =>
    let m1 := bumpNs m rb.ns
    if 1 < rb.subjects.length then .error (.multiSubject rb.name rb.ns)
    else
      match rb.subjects with
      | [] => .error (.noSubject rb.name rb.ns)
      | s :: _ =>
        match alookup idMap s.name with
        | some id =>
          match mutateGo idMap (incrNs m1 rb.ns) rest with
          | .ok (l2, m2) => .ok (migrateOne rb s.name id :: l2, m2)
          | .error e => .error e
        | none => mutateGo idMap m1 rest

/-- Namespaces of the final accumulator whose migrated count is still zero:
the orphan report printed after the loop. -/
def orphansOf (m : List (String × Nat)) : List String :=
  (m.filter (fun p => p.2 == 0)).map (fun p => p.1)

/-- Embedding of the Go function mutateTenantRoleBindings: the migrated
binding list together with the orphan-namespace report, or the error on which
the process dies (in which case no migrated output exists at all). -/
def mutateTenantRoleBindings (idMap : List (String × String))
    (rbList : List RoleBinding) :
    Except MigrateError (List RoleBinding × List String) :=
  match mutateGo idMap [] rbList with
  | .ok (l, m) => .ok (l, orphansOf m)
  | .error e => .error e

/-! ## Output boundary: writeMigratedRoleBindings

The Go function deduplicates before serialising: the key is the string
"(namespace-name)" built by fmt.Sprintf, an already-seen key is skipped with
a log line, a new key is recorded and the binding is written.  The embedding
returns the list of bindings actually written. -/

/-- Deduplication key of writeMigratedRoleBindings: Sprintf("(%s-%s)",
rb.Namespace, rb.Name). -/
def dedupKey (rb : RoleBinding) : String := "(" ++ rb.ns ++ "-" ++ rb.name ++ ")"

/-- Loop of writeMigratedRoleBindings carrying the processedRBs key set. -/
def writeLoop : List RoleBinding → List String → List RoleBinding
  | [], _ => []
  | rb :: rest, seen =>
    if dedupKey rb ∈ seen then writeLoop rest seen
    else rb :: writeLoop rest (dedupKey rb :: seen)

/-- Embedding of the output-boundary deduplication of
writeMigratedRoleBindings: the sequence of bindings written to the file. -/
def writeMigratedRoleBindings (rbList : List RoleBinding) : List RoleBinding :=
  writeLoop rbList []

/-! ## Step lemmas for the transformation loop -/

theorem mutateGo_nil (idMap : List (String × String)) (m : List (String × Nat)) :
    mutateGo idMap m [] = .ok ([], m) := rfl

theorem mutateGo_cons_multi (idMap : List (String × String))
    (m : List (String × Nat)) (rb : RoleBinding) (rest : List RoleBinding)
    (h : 1 < rb.subjects.length) :
    mutateGo idMap m (rb :: rest) = .error (.multiSubject rb.name rb.ns) := by
  simp only [mutateGo, if_pos h]

theorem mutateGo_cons_zero (idMap : List (String × String))
    (m : List (String × Nat)) (rb : RoleBinding) (rest : List RoleBinding)
    (h : rb.subjects = []) :
    mutateGo idMap m (rb :: rest) = .error (.noSubject rb.name rb.ns) := by
  simp only [mutateGo, h]
  rfl

theorem mutateGo_cons_skip (idMap : List (String × String))
    (m : List (String × Nat)) (rb : RoleBinding) (s : Subject)
    (rest : List RoleBinding) (h1 : rb.subjects = [s])
    (h2 : alookup idMap s.name = none) :
    mutateGo idMap m (rb :: rest) = mutateGo idMap (bumpNs m rb.ns) rest := by
  simp only [mutateGo, h1, h2]
  rfl

theorem mutateGo_cons_hit (idMap : List (String × String))
    (m : List (String × Nat)) (rb : RoleBinding) (s : Subject) (id : String)
    (rest : List RoleBinding) (h1 : rb.subjects = [s])
    (h2 : alookup idMap s.name = some id) :
    mutateGo idMap m (rb :: rest) =
      match mutateGo idMap (incrNs (bumpNs m rb.ns) rb.ns) rest with
      | .ok (l2, m2) => .ok (migrateOne rb s.name id :: l2, m2)
      | .error e => .error e := by
  simp only [mutateGo, h1, h2]
  rfl

/-! ## Accumulator lemmas for the orphan accounting -/

theorem alookup_append {β : Type} (a b : List (String × β)) (k : String) :
    alookup (a ++ b) k =
      match alookup a k with
      | some v => some v
      | none => alookup b k := by
  induction a with
  | nil => simp [alookup]
  | cons p rest ih =>
    cases p with
    | mk k1 v =>
      by_cases h : k1 = k
      · simp [alookup, h]
      · simp [alookup, h, ih]

theorem bumpNs_absent (m : List (String × Nat)) (n : String)
    (h : alookup m n = none) : bumpNs m n = m ++ [(n, 0)] := by
  simp [bumpNs, h]

theorem bumpNs_present (m : List (String × Nat)) (n : String) (c : Nat)
    (h : alookup m n = some c) : bumpNs m n = m := by
  simp [bumpNs, h]

theorem alookup_bumpNs_self (m : List (String × Nat)) (n : String) :
    alookup (bumpNs m n) n = some ((alookup m n).getD 0) := by
  cases h : alookup m n with
  | some c => rw [bumpNs_present m n c h, h]; rfl
  | none =>
    rw [bumpNs_absent m n h, alookup_append, h]
    simp [alookup]

theorem alookup_bumpNs_ne (m : List (String × Nat)) (n k : String) (h : k ≠ n) :
    alookup (bumpNs m n) k = alookup m k := by
  cases hs : alookup m n with
  | some c => rw [bumpNs_present m n c hs]
  | none =>
    rw [bumpNs_absent m n hs, alookup_append]
    cases hk : alookup m k with
    | some c => simp
    | none => simp [alookup, Ne.symm h]

theorem incrNs_cons (k1 : String) (v : Nat) (rest : List (String × Nat))
    (n : String) :
    incrNs ((k1, v) :: rest) n =
      (if k1 = n then (k1, v + 1) else (k1, v)) :: incrNs rest n := rfl

theorem alookup_incrNs_self (m : List (String × Nat)) (n : String) :
    alookup (incrNs m n) n = (alookup m n).map (fun c => c + 1) := by
  induction m with
  | nil => simp [incrNs, alookup]
  | cons p rest ih =>
    cases p with
    | mk k1 v =>
      by_cases h : k1 = n
      · subst h
        rw [incrNs_cons, if_pos rfl]
        simp [alookup]
      · rw [incrNs_cons, if_neg h]
        simp only [alookup, if_neg h]
        exact ih

theorem alookup_incrNs_ne (m : List (String × Nat)) (n k : String) (h : k ≠ n) :
    alookup (incrNs m n) k = alookup m k := by
  induction m with
  | nil => simp [incrNs, alookup]
  | cons p rest ih =>
    cases p with
    | mk k1 v =>
      by_cases h1 : k1 = n
      · subst h1
        simp only [incrNs, List.map_cons, if_pos rfl]
        simp only [alookup, if_neg (Ne.symm h)]
        exact ih
      · simp only [incrNs, List.map_cons, if_neg h1]
        simp only [alookup]
        by_cases h2 : k1 = k
        · simp [h2]
        · simp only [if_neg h2]
          exact ih

theorem keys_incrNs (m : List (String × Nat)) (n : String) :
    (incrNs m n).map (fun p => p.1) = m.map (fun p => p.1) := by
  induction m with
  | nil => rfl
  | cons p rest ih =>
    cases p with
    | mk k1 v =>
      by_cases h : k1 = n <;> simp [incrNs, h] <;> simpa [incrNs] using ih

theorem keys_bumpNs_nodup (m : List (String × Nat)) (n : String)
    (h : (m.map (fun p => p.1)).Nodup) :
    ((bumpNs m n).map (fun p => p.1)).Nodup := by
  cases hs : alookup m n with
  | some c => rw [bumpNs_present m n c hs]; exact h
  | none =>
    have hn : n ∉ m.map (fun p => p.1) := (alookup_eq_none_iff m n).mp hs
    rw [bumpNs_absent m n hs, List.map_append]
    refine ((List.perm_append_singleton n (m.map fun p => p.1)).nodup_iff).mpr ?_
    exact (List.nodup_cons).mpr ⟨hn, h⟩

/-! ## Invariants of the transformation loop -/

/-- Number of migrated bindings carrying a given namespace. -/
def nsCount (l : List RoleBinding) (n : String) : Nat :=
  (l.filter (fun rb => rb.ns == n)).length

theorem nsCount_nil (n : String) : nsCount [] n = 0 := rfl

theorem nsCount_cons (rb : RoleBinding) (l : List RoleBinding) (n : String) :
    nsCount (rb :: l) n =
      if rb.ns = n then nsCount l n + 1 else nsCount l n := by
  by_cases h : rb.ns = n <;> simp [nsCount, h]

theorem nsCount_eq_zero_iff (l : List RoleBinding) (n : String) :
    nsCount l n = 0 ↔ ∀ rb ∈ l, rb.ns ≠ n := by
  induction l with
  | nil => simp [nsCount_nil]
  | cons rb rest ih =>
    rw [nsCount_cons]
    by_cases h : rb.ns = n <;> simp [h, ih]

theorem migrateOne_ns (rb : RoleBinding) (user id : String) :
    (migrateOne rb user id).ns = rb.ns := rfl

theorem migrateOne_roleRef_kind (rb : RoleBinding) (user id : String) :
    (migrateOne rb user id).roleRef.kind = "ClusterRole" := rfl

theorem migrateOne_roleRef_name (rb : RoleBinding) (user id : String) :
    (migrateOne rb user id).roleRef.name =
      replaceFirstS rb.roleRef.name "appstudio" "konflux" := rfl

theorem migrateOne_name (rb : RoleBinding) (user id : String) :
    (migrateOne rb user id).name =
      replaceFirstS (replaceFirstS rb.name "appstudio" "konflux") user id := rfl

theorem mutateGo_alookup (idMap : List (String × String)) :
    ∀ (l : List RoleBinding) (m : List (String × Nat))
      (out : List RoleBinding) (m2 : List (String × Nat)),
    mutateGo idMap m l = .ok (out, m2) → ∀ n : String,
    alookup m2 n =
      match alookup m n with
      | some c => some (c + nsCount out n)
      | none =>
        if n ∈ l.map (fun rb => rb.ns) then some (nsCount out n) else none := by
  intro l
  induction l with
  | nil =>
    intro m out m2 h n
    rw [mutateGo_nil] at h
    injection h with h
    injection h with h1 h2
    subst h1
    subst h2
    cases hm : alookup m n <;> simp [nsCount_nil, hm]
  | cons rb rest ih =>
    intro m out m2 h n
    cases hs : rb.subjects with
    | nil => rw [mutateGo_cons_zero idMap m rb rest hs] at h; cases h
    | cons s t =>
      cases t with
      | cons s2 t2 =>
        rw [mutateGo_cons_multi idMap m rb rest (by simp [hs])] at h
        cases h
      | nil =>
        cases hl : alookup idMap s.name with
        | none =>
          rw [mutateGo_cons_skip idMap m rb s rest hs hl] at h
          have hih := ih (bumpNs m rb.ns) out m2 h n
          by_cases hn : n = rb.ns
          · subst hn
            rw [alookup_bumpNs_self] at hih
            rw [hih]
            cases hm : alookup m rb.ns <;> simp [hm]
          · rw [alookup_bumpNs_ne m rb.ns n hn] at hih
            rw [hih]
            cases hm : alookup m n
            · simp [hm, hn]
            · simp [hm]
        | some id =>
          rw [mutateGo_cons_hit idMap m rb s id rest hs hl] at h
          cases hrec : mutateGo idMap (incrNs (bumpNs m rb.ns) rb.ns) rest with
          | error e => rw [hrec] at h; cases h
          | ok p =>
            cases p with
            | mk l2 m2x =>
              rw [hrec] at h
              injection h with h
              injection h with h1 h2
              subst h1
              subst h2
              have hih := ih (incrNs (bumpNs m rb.ns) rb.ns) l2 m2x hrec n
              by_cases hn : n = rb.ns
              · subst hn
                rw [alookup_incrNs_self, alookup_bumpNs_self] at hih
                rw [hih, nsCount_cons, if_pos (migrateOne_ns rb s.name id)]
                cases hm : alookup m rb.ns <;> simp [hm] <;> omega
              · rw [alookup_incrNs_ne _ _ _ hn, alookup_bumpNs_ne _ _ _ hn] at hih
                have hcond : ¬((migrateOne rb s.name id).ns = n) := by
                  rw [migrateOne_ns]
                  exact fun hh => hn hh.symm
                rw [hih, nsCount_cons, if_neg hcond]
                cases hm : alookup m n
                · simp [hm, hn, Ne.symm hn]
                · simp [hm]

theorem mutateGo_keys_nodup (idMap : List (String × String)) :
    ∀ (l : List RoleBinding) (m : List (String × Nat))
      (out : List RoleBinding) (m2 : List (String × Nat)),
    mutateGo idMap m l = .ok (out, m2) →
    (m.map (fun p => p.1)).Nodup → (m2.map (fun p => p.1)).Nodup := by
  intro l
  induction l with
  | nil =>
    intro m out m2 h hnd
    rw [mutateGo_nil] at h
    injection h with h
    injection h with h1 h2
    subst h2
    exact hnd
  | cons rb rest ih =>
    intro m out m2 h hnd
    cases hs : rb.subjects with
    | nil => rw [mutateGo_cons_zero idMap m rb rest hs] at h; cases h
    | cons s t =>
      cases t with
      | cons s2 t2 =>
        rw [mutateGo_cons_multi idMap m rb rest (by simp [hs])] at h
        cases h
      | nil =>
        have hbump := keys_bumpNs_nodup m rb.ns hnd
        cases hl : alookup idMap s.name with
        | none =>
          rw [mutateGo_cons_skip idMap m rb s rest hs hl] at h
          exact ih (bumpNs m rb.ns) out m2 h hbump
        | some id =>
          rw [mutateGo_cons_hit idMap m rb s id rest hs hl] at h
          cases hrec : mutateGo idMap (incrNs (bumpNs m rb.ns) rb.ns) rest with
          | error e => rw [hrec] at h; cases h
          | ok p =>
            cases p with
            | mk l2 m2x =>
              rw [hrec] at h
              injection h with h
              injection h with h1 h2
              subst h2
              refine ih (incrNs (bumpNs m rb.ns) rb.ns) l2 m2x hrec ?_
              rw [keys_incrNs]
              exact hbump

theorem mutateGo_ok_all (idMap : List (String × String)) :
    ∀ (l : List RoleBinding) (m : List (String × Nat))
      (out : List RoleBinding) (m2 : List (String × Nat)),
    mutateGo idMap m l = .ok (out, m2) →
    ∀ rb ∈ l, ∃ s : Subject, rb.subjects = [s] := by
  intro l
  induction l with
  | nil => intro m out m2 _ rb hrb; cases hrb
  | cons rb0 rest ih =>
    intro m out m2 h rb hrb
    cases hs : rb0.subjects with
    | nil => rw [mutateGo_cons_zero idMap m rb0 rest hs] at h; cases h
    | cons s t =>
      cases t with
      | cons s2 t2 =>
        rw [mutateGo_cons_multi idMap m rb0 rest (by simp [hs])] at h
        cases h
      | nil =>
        rcases List.mem_cons.mp hrb with hrb | hrb
        · exact ⟨s, hrb ▸ hs⟩
        · cases hl : alookup idMap s.name with
          | none =>
            rw [mutateGo_cons_skip idMap m rb0 s rest hs hl] at h
            exact ih (bumpNs m rb0.ns) out m2 h rb hrb
          | some id =>
            rw [mutateGo_cons_hit idMap m rb0 s id rest hs hl] at h
            cases hrec : mutateGo idMap (incrNs (bumpNs m rb0.ns) rb0.ns) rest with
            | error e => rw [hrec] at h; cases h
            | ok p =>
              cases p with
              | mk l2 m2x =>
                exact ih (incrNs (bumpNs m rb0.ns) rb0.ns) l2 m2x hrec rb hrb

theorem mutateGo_out_shape (idMap : List (String × String)) :
    ∀ (l : List RoleBinding) (m : List (String × Nat))
      (out : List RoleBinding) (m2 : List (String × Nat)),
    mutateGo idMap m l = .ok (out, m2) →
    ∀ rb2 ∈ out, ∃ rb s id, rb ∈ l ∧ rb.subjects = [s] ∧
      alookup idMap s.name = some id ∧ rb2 = migrateOne rb s.name id := by
  intro l
  induction l with
  | nil =>
    intro m out m2 h rb2 hrb2
    rw [mutateGo_nil] at h
    injection h with h
    injection h with h1 h2
    subst h1
    cases hrb2
  | cons rb0 rest ih =>
    intro m out m2 h rb2 hrb2
    cases hs : rb0.subjects with
    | nil => rw [mutateGo_cons_zero idMap m rb0 rest hs] at h; cases h
    | cons s t =>
      cases t with
      | cons s2 t2 =>
        rw [mutateGo_cons_multi idMap m rb0 rest (by simp [hs])] at h
        cases h
      | nil =>
        cases hl : alookup idMap s.name with
        | none =>
          rw [mutateGo_cons_skip idMap m rb0 s rest hs hl] at h
          rcases ih (bumpNs m rb0.ns) out m2 h rb2 hrb2 with
            ⟨rb, s2, id, hmem, h1, h2, h3⟩
          exact ⟨rb, s2, id, List.mem_cons_of_mem rb0 hmem, h1, h2, h3⟩
        | some id =>
          rw [mutateGo_cons_hit idMap m rb0 s id rest hs hl] at h
          cases hrec : mutateGo idMap (incrNs (bumpNs m rb0.ns) rb0.ns) rest with
          | error e => rw [hrec] at h; cases h
          | ok p =>
            cases p with
            | mk l2 m2x =>
              rw [hrec] at h
              injection h with h
              injection h with h1 h2
              subst h1
              rcases List.mem_cons.mp hrb2 with hrb2 | hrb2
              · exact ⟨rb0, s, id, List.mem_cons_self rb0 rest, hs, hl, hrb2⟩
              · rcases ih (incrNs (bumpNs m rb0.ns) rb0.ns) l2 m2x hrec rb2 hrb2 with
                  ⟨rb, s2, id2, hmem, hh1, hh2, hh3⟩
                exact ⟨rb, s2, id2, List.mem_cons_of_mem rb0 hmem, hh1, hh2, hh3⟩

/-! ## Orphan report lemmas -/

theorem alookup_eq_some_iff_mem {β : Type} (m : List (String × β))
    (hnd : (m.map (fun p => p.1)).Nodup) (k : String) (v : β) :
    alookup m k = some v ↔ (k, v) ∈ m := by
  induction m with
  | nil => simp [alookup]
  | cons p rest ih =>
    cases p with
    | mk k1 v1 =>
      have hnd2 : (rest.map (fun p => p.1)).Nodup := (List.nodup_cons.mp hnd).2
      have hk1 : k1 ∉ rest.map (fun p => p.1) := (List.nodup_cons.mp hnd).1
      by_cases h : k1 = k
      · subst h
        have halo : alookup ((k1, v1) :: rest) k1 = some v1 := by simp [alookup]
        rw [halo, List.mem_cons]
        constructor
        · intro hv
          injection hv with hv
          exact Or.inl (by rw [hv])
        · intro hv
          rcases hv with hv | hv
          · injection hv with h1 h2
            rw [h2]
          · exact absurd (List.mem_map.mpr ⟨(k1, v), hv, rfl⟩) hk1
      · have halo : alookup ((k1, v1) :: rest) k = alookup rest k := by
          simp [alookup, h]
        rw [halo, List.mem_cons, ih hnd2]
        constructor
        · exact Or.inr
        · intro hv
          rcases hv with hv | hv
          · injection hv with h1 h2
            exact absurd h1.symm h
          · exact hv

theorem mem_orphansOf_iff (m : List (String × Nat)) (n : String) :
    n ∈ orphansOf m ↔ ∃ p, p ∈ m ∧ p.2 = 0 ∧ p.1 = n := by
  simp only [orphansOf, List.mem_map, List.mem_filter, beq_iff_eq]
  constructor
  · rintro ⟨p, ⟨hp, h0⟩, h1⟩
    exact ⟨p, hp, h0, h1⟩
  · rintro ⟨p, hp, h0, h1⟩
    exact ⟨p, ⟨hp, h0⟩, h1⟩

theorem mem_orphansOf_nodup (m : List (String × Nat)) (n : String)
    (hnd : (m.map (fun p => p.1)).Nodup) :
    n ∈ orphansOf m ↔ alookup m n = some 0 := by
  rw [mem_orphansOf_iff, alookup_eq_some_iff_mem m hnd]
  constructor
  · rintro ⟨p, hp, h0, h1⟩
    cases p with
    | mk a b =>
      cases h0
      cases h1
      exact hp
  · intro h
    exact ⟨(n, 0), h, rfl, rfl⟩

theorem orphansOf_nodup (m : List (String × Nat))
    (hnd : (m.map (fun p => p.1)).Nodup) : (orphansOf m).Nodup := by
  have hsub : List.Sublist ((m.filter (fun p => p.2 == 0)).map (fun p => p.1))
      (m.map (fun p => p.1)) :=
    (List.filter_sublist m).map (fun p => p.1)
  exact hnd.sublist hsub

/-! ## Output-boundary deduplication lemmas -/

theorem writeLoop_sublist : ∀ (l : List RoleBinding) (seen : List String),
    List.Sublist (writeLoop l seen) l := by
  intro l
  induction l with
  | nil => intro seen; simp [writeLoop]
  | cons rb rest ih =>
    intro seen
    by_cases h : dedupKey rb ∈ seen
    · simp only [writeLoop, if_pos h]
      exact (ih seen).trans (List.sublist_cons_self rb rest)
    · simp only [writeLoop, if_neg h]
      exact List.Sublist.cons₂ rb (ih (dedupKey rb :: seen))

theorem writeLoop_not_seen : ∀ (l : List RoleBinding) (seen : List String)
    (rb : RoleBinding), rb ∈ writeLoop l seen → dedupKey rb ∉ seen := by
  intro l
  induction l with
  | nil => intro seen rb h; cases h
  | cons rb0 rest ih =>
    intro seen rb h
    by_cases h0 : dedupKey rb0 ∈ seen
    · rw [writeLoop, if_pos h0] at h
      exact ih seen rb h
    · rw [writeLoop, if_neg h0] at h
      rcases List.mem_cons.mp h with h | h
      · rw [h]; exact h0
      · have := ih (dedupKey rb0 :: seen) rb h
        exact fun hc => this (List.mem_cons_of_mem _ hc)

theorem writeLoop_pairwise : ∀ (l : List RoleBinding) (seen : List String),
    (writeLoop l seen).Pairwise (fun a b => dedupKey a ≠ dedupKey b) := by
  intro l
  induction l with
  | nil => intro seen; simp [writeLoop]
  | cons rb0 rest ih =>
    intro seen
    by_cases h0 : dedupKey rb0 ∈ seen
    · rw [writeLoop, if_pos h0]
      exact ih seen
    · rw [writeLoop, if_neg h0]
      refine List.Pairwise.cons ?_ (ih (dedupKey rb0 :: seen))
      intro b hb
      have := writeLoop_not_seen rest (dedupKey rb0 :: seen) b hb
      exact fun hc => this (hc ▸ List.mem_cons_self _ _)

theorem writeLoop_find : ∀ (l : List RoleBinding) (seen : List String)
    (rb : RoleBinding), rb ∈ l → dedupKey rb ∉ seen →
    ∃ rb2, l.find? (fun x => dedupKey x == dedupKey rb) = some rb2 ∧
      rb2 ∈ writeLoop l seen := by
  intro l
  induction l with
  | nil => intro seen rb h; cases h
  | cons rb0 rest ih =>
    intro seen rb hmem hns
    by_cases hk : dedupKey rb0 = dedupKey rb
    · refine ⟨rb0, ?_, ?_⟩
      · rw [List.find?_cons_of_pos _ (by simp [hk])]
      · have h0 : dedupKey rb0 ∉ seen := hk ▸ hns
        rw [writeLoop, if_neg h0]
        exact List.mem_cons_self _ _
    · have hmem2 : rb ∈ rest := by
        rcases List.mem_cons.mp hmem with h | h
        · exact absurd (congrArg dedupKey h.symm) hk
        · exact h
      rw [List.find?_cons_of_neg _ (by simp [hk])]
      by_cases h0 : dedupKey rb0 ∈ seen
      · rw [writeLoop, if_pos h0]
        exact ih seen rb hmem2 hns
      · rw [writeLoop, if_neg h0]
        have hns2 : dedupKey rb ∉ dedupKey rb0 :: seen := by
          intro hc
          rcases List.mem_cons.mp hc with hc | hc
          · exact hk hc.symm
          · exact hns hc
        rcases ih (dedupKey rb0 :: seen) rb hmem2 hns2 with ⟨rb2, hfind, hmem3⟩
        exact ⟨rb2, hfind, List.mem_cons_of_mem _ hmem3⟩

/-! ## buildIDMap lemmas -/

theorem buildStep_malformed (transform : String → String)
    (idMap : List (String × String)) (acct : UserAccount)
    (h : extractEmail acct = none) :
    buildStep transform idMap acct = idMap := by
  simp [buildStep, h]

theorem buildIDMap_values_aux (transform : String → String) :
    ∀ (accounts : List UserAccount) (init : List (String × String)),
    (∀ p ∈ init, p.2 ≠ "") →
    ∀ p ∈ List.foldl (buildStep transform) init accounts, p.2 ≠ "" := by
  intro accounts
  induction accounts with
  | nil => intro init hinit p hp; exact hinit p hp
  | cons acct rest ih =>
    intro init hinit p hp
    rw [List.foldl_cons] at hp
    refine ih (buildStep transform init acct) ?_ p hp
    intro q hq
    cases he : extractEmail acct with
    | none =>
      rw [buildStep_malformed transform init acct he] at hq
      exact hinit q hq
    | some email =>
      simp only [buildStep, he] at hq
      by_cases hid : transform email = ""
      · rw [if_pos hid] at hq
        exact hinit q hq
      · rw [if_neg hid] at hq
        rcases mem_insertAL init acct.name (transform email) q hq with hq | hq
        · exact hinit q hq
        · rw [hq]
          exact hid

/-! ## Lookup extensionality of the transformation (for determinism) -/

theorem mutateGo_ext (idMap idMap2 : List (String × String))
    (hmap : ∀ k, alookup idMap k = alookup idMap2 k) :
    ∀ (l : List RoleBinding) (m : List (String × Nat)),
    mutateGo idMap m l = mutateGo idMap2 m l := by
  intro l
  induction l with
  | nil => intro m; rfl
  | cons rb rest ih =>
    intro m
    cases hs : rb.subjects with
    | nil =>
      rw [mutateGo_cons_zero idMap m rb rest hs,
        mutateGo_cons_zero idMap2 m rb rest hs]
    | cons s t =>
      cases t with
      | cons s2 t2 =>
        rw [mutateGo_cons_multi idMap m rb rest (by simp [hs]),
          mutateGo_cons_multi idMap2 m rb rest (by simp [hs])]
      | nil =>
        cases hl : alookup idMap s.name with
        | none =>
          rw [mutateGo_cons_skip idMap m rb s rest hs hl,
            mutateGo_cons_skip idMap2 m rb s rest hs ((hmap s.name) ▸ hl),
            ih (bumpNs m rb.ns)]
        | some id =>
          rw [mutateGo_cons_hit idMap m rb s id rest hs hl,
            mutateGo_cons_hit idMap2 m rb s id rest hs ((hmap s.name) ▸ hl),
            ih (incrNs (bumpNs m rb.ns) rb.ns)]

/-! ## Wrapper lemmas and concrete fixtures -/

theorem mutateTRB_eq_of_go_ok (idMap : List (String × String))
    (rbList l : List RoleBinding) (m : List (String × Nat))
    (hr : mutateGo idMap [] rbList = .ok (l, m)) :
    mutateTenantRoleBindings idMap rbList = .ok (l, orphansOf m) := by
  unfold mutateTenantRoleBindings
  rw [hr]

theorem mutateTRB_eq_of_go_error (idMap : List (String × String))
    (rbList : List RoleBinding) (e : MigrateError)
    (hr : mutateGo idMap [] rbList = .error e) :
    mutateTenantRoleBindings idMap rbList = .error e := by
  unfold mutateTenantRoleBindings
  rw [hr]

/-- Concrete subject used by the witness instances. -/
def mkSubject (n : String) : Subject :=
  { kind := "User", apiGroup := "rbac.authorization.k8s.io", name := n, ns := "" }

/-- Concrete pre-migration binding, with server-assigned metadata populated
the way a listed cluster object would be. -/
def mkRB (ns name subj role : String) : RoleBinding :=
  { apiVersion := "v1", kind := "RoleBinding", name := name, ns := ns,
    labels := some [("toolchain.dev.openshift.com/provider", "codeready-toolchain")],
    annotations := some [("k", "v")], resourceVersion := "7", uid := "u1",
    creationTimestamp := some "2025-01-01T00:00:00Z", managedFields := ["mf"],
    subjects := [mkSubject subj],
    roleRef := { apiGroup := "rbac.authorization.k8s.io", kind := "Role",
                 name := role } }

/-! ## Claim C1 -/

/-- Input of the C1 counterexample: the legacy token occurs twice in both the
binding name and the role name, and the subject is a key of the mapping. -/
def c1RB : RoleBinding :=
  mkRB "team-a" "appstudio-appstudio-rb" "jdoe" "appstudio-appstudio-user"

/-- Record produced by the transformation for c1RB under the mapping
jdoe to jd: only the first occurrence of the token is rewritten. -/
def c1Out : RoleBinding :=
  { apiVersion := "rbac.authorization.k8s.io/v1", kind := "RoleBinding",
    name := "konflux-appstudio-rb", ns := "team-a",
    labels := some [("konflux-ci.dev/type", "user")], annotations := none,
    resourceVersion := "", uid := "", creationTimestamp := none,
    managedFields := [],
    subjects := [{ kind := "User", apiGroup := "rbac.authorization.k8s.io",
                   name := "jd", ns := "" }],
    roleRef := { apiGroup := "rbac.authorization.k8s.io",
                 kind := "ClusterRole", name := "konflux-appstudio-user" } }

/-- C1 counterexample: a binding whose subject is a key of the mapping and
whose role name contains the legacy token twice migrates to a record whose
role-reference name (and binding name) still contains an occurrence of
"appstudio", refuting the claim for inputs where the token occurs more than
once. -/
theorem claim1_counterexample :
    mutateTenantRoleBindings [("jdoe", "jd")] [c1RB] = .ok ([c1Out], []) ∧
    c1Out.roleRef.kind = "ClusterRole" ∧
    List.IsInfix "appstudio".data c1Out.roleRef.name.data ∧
    List.IsInfix "appstudio".data c1Out.name.data := by
  refine ⟨rfl, rfl, ?_, ?_⟩ <;> decide

/-- C1 (amended): for every binding whose single subject resolves through the
mapping, the role-reference kind of the migrated record is the cluster-scoped kind
"ClusterRole", and its role-reference name and binding name are obtained from
the originals by replacing only the first occurrence of the legacy token
"appstudio" with "konflux" (the binding name additionally replacing the first
occurrence of the legacy subject name with the resolved identity); an
occurrence of the token after the first is retained. -/
theorem claim1_amended (idMap : List (String × String))
    (rbList out : List RoleBinding) (orph : List String)
    (h : mutateTenantRoleBindings idMap rbList = .ok (out, orph)) :
    ∀ rb2 ∈ out, rb2.roleRef.kind = "ClusterRole" ∧
      ∃ rb s id, rb ∈ rbList ∧ rb.subjects = [s] ∧
        alookup idMap s.name = some id ∧
        rb2.roleRef.name = replaceFirstS rb.roleRef.name "appstudio" "konflux" ∧
        rb2.name =
          replaceFirstS (replaceFirstS rb.name "appstudio" "konflux") s.name id := by
  intro rb2 hrb2
  cases hr : mutateGo idMap [] rbList with
  | error e =>
    rw [mutateTRB_eq_of_go_error idMap rbList e hr] at h
    cases h
  | ok p =>
    cases p with
    | mk l m =>
      rw [mutateTRB_eq_of_go_ok idMap rbList l m hr] at h
      injection h with h
      injection h with h1 h2
      subst h1
      rcases mutateGo_out_shape idMap rbList [] l m hr rb2 hrb2 with
        ⟨rb, s, id, hmem, hsub, hlook, heq⟩
      subst heq
      exact ⟨migrateOne_roleRef_kind rb s.name id, rb, s, id, hmem, hsub, hlook,
        migrateOne_roleRef_name rb s.name id, migrateOne_name rb s.name id⟩

/-- Witness for the amended C1 at a concrete run. -/
theorem claim1_witness :
    c1Out.roleRef.kind = "ClusterRole" ∧
    ∃ rb s id, rb ∈ [c1RB] ∧ rb.subjects = [s] ∧
      alookup [("jdoe", "jd")] s.name = some id ∧
      c1Out.roleRef.name = replaceFirstS rb.roleRef.name "appstudio" "konflux" ∧
      c1Out.name =
        replaceFirstS (replaceFirstS rb.name "appstudio" "konflux") s.name id :=
  claim1_amended [("jdoe", "jd")] [c1RB] [c1Out] [] rfl c1Out
    (List.mem_singleton.mpr rfl)

/-! ## Claim C2 -/

/-- First input of the C2 counterexample. -/
def c2A : RoleBinding := mkRB "a-b" "c" "u1" "r1"

/-- Second input of the C2 counterexample: its pair (namespace, name) differs
from the pair of the first binding, but the concatenated key "(a-b-c)" collides. -/
def c2B : RoleBinding := mkRB "a" "b-c" "u2" "r2"

/-- C2 counterexample: two bindings with different (namespace, name) pairs
whose Sprintf keys "(namespace-name)" coincide; only the first is written, so
duplicate detection is not exactly pair equality. -/
theorem claim2_counterexample :
    c2A.ns ≠ c2B.ns ∧ c2A.name ≠ c2B.name ∧
    writeMigratedRoleBindings [c2A, c2B] = [c2A] := by
  refine ⟨?_, ?_, rfl⟩ <;> decide

/-- C2 (amended): the output boundary deduplicates by the concatenated string
key "(namespace-name)": the written sequence is a subsequence of the input
with pairwise distinct keys, equality of both namespace and name implies
equality of keys (so at most one of any such pair of duplicates is written),
and for every input binding the binding written for its key is the first
input binding carrying that key; however two bindings whose (namespace, name)
pairs differ may still collide on the concatenated key, in which case only
the earlier one is written. -/
theorem claim2_amended (l : List RoleBinding) :
    List.Sublist (writeMigratedRoleBindings l) l ∧
    (writeMigratedRoleBindings l).Pairwise (fun a b => dedupKey a ≠ dedupKey b) ∧
    (∀ rb1 rb2 : RoleBinding, rb1.ns = rb2.ns → rb1.name = rb2.name →
      dedupKey rb1 = dedupKey rb2) ∧
    (∀ rb ∈ l, ∃ rb2, l.find? (fun x => dedupKey x == dedupKey rb) = some rb2 ∧
      rb2 ∈ writeMigratedRoleBindings l) := by
  refine ⟨writeLoop_sublist l [], writeLoop_pairwise l [], ?_, ?_⟩
  · intro rb1 rb2 h1 h2
    rw [dedupKey, dedupKey, h1, h2]
  · intro rb hrb
    exact writeLoop_find l [] rb hrb (by simp)

/-- Witness for the amended C2 at a concrete duplicated input. -/
theorem claim2_witness :
    List.Sublist (writeMigratedRoleBindings [c2A, c2A]) [c2A, c2A] ∧
    ∃ rb2, [c2A, c2A].find? (fun x => dedupKey x == dedupKey c2A) = some rb2 ∧
      rb2 ∈ writeMigratedRoleBindings [c2A, c2A] :=
  ⟨(claim2_amended [c2A, c2A]).1,
   (claim2_amended [c2A, c2A]).2.2.2 c2A (List.mem_cons_self c2A [c2A])⟩

/-! ## Claim C3 -/

/-- C3: a run whose input contains a binding with more than one subject ends
in the fatal error path; no migrated output exists for any binding of that
run (the result is an error, not a list). -/
theorem claim3_thm (idMap : List (String × String)) (rbList : List RoleBinding)
    (h : ∃ rb ∈ rbList, 1 < rb.subjects.length) :
    ∃ e, mutateTenantRoleBindings idMap rbList = .error e := by
  cases hr : mutateGo idMap [] rbList with
  | error e => exact ⟨e, mutateTRB_eq_of_go_error idMap rbList e hr⟩
  | ok p =>
    cases p with
    | mk l m =>
      rcases h with ⟨rb, hmem, hlen⟩
      rcases mutateGo_ok_all idMap rbList [] l m hr rb hmem with ⟨s, hs⟩
      rw [hs] at hlen
      simp at hlen

/-- Concrete two-subject binding for the C3 witness. -/
def c3RB : RoleBinding :=
  { mkRB "team-c" "b3" "u3" "r3" with
    subjects := [mkSubject "u3", mkSubject "v3"] }

/-- Witness for C3 at a concrete multi-subject input. -/
theorem claim3_witness :
    ∃ e, mutateTenantRoleBindings [] [c3RB] = .error e :=
  claim3_thm [] [c3RB] ⟨c3RB, List.mem_singleton.mpr rfl, by decide⟩

/-! ## Claim C4 -/

/-- C4: a binding whose single subject is absent from the mapping is skipped
whole: the loop on it reduces to the loop on the remaining bindings, with the
only state change being that its namespace is now tracked with an unchanged
(zero-initialised) migrated count; in particular no migrated record is
emitted for it arbitrarily far down the run, and its namespace stays tracked
in the final accumulator. -/
theorem claim4_thm (idMap : List (String × String)) (m : List (String × Nat))
    (rb : RoleBinding) (s : Subject) (rest : List RoleBinding)
    (h1 : rb.subjects = [s]) (h2 : alookup idMap s.name = none) :
    mutateGo idMap m (rb :: rest) = mutateGo idMap (bumpNs m rb.ns) rest ∧
    (∀ out m2, mutateGo idMap m (rb :: rest) = .ok (out, m2) →
      alookup m2 rb.ns ≠ none) := by
  have hstep := mutateGo_cons_skip idMap m rb s rest h1 h2
  refine ⟨hstep, ?_⟩
  intro out m2 h
  rw [hstep] at h
  have halo := mutateGo_alookup idMap rest (bumpNs m rb.ns) out m2 h rb.ns
  rw [alookup_bumpNs_self] at halo
  rw [halo]
  simp

/-- Concrete binding with an unresolved subject for the C4 witness. -/
def c4RB : RoleBinding := mkRB "team-b" "b4" "ghost" "appstudio-user"

/-- Witness for C4 at a concrete unresolved subject. -/
theorem claim4_witness :
    mutateGo [] [] [c4RB] = mutateGo [] (bumpNs [] c4RB.ns) [] :=
  (claim4_thm [] [] c4RB (mkSubject "ghost") [] rfl rfl).1

/-! ## Claim C5 -/

/-- C5: in a completed run, the orphan report has no duplicate entries, and a
namespace is reported exactly when it occurs among the candidate bindings and
no migrated binding carries it; in particular a namespace with at least one
migrated binding is never reported. -/
theorem claim5_thm (idMap : List (String × String))
    (rbList out : List RoleBinding) (orph : List String)
    (h : mutateTenantRoleBindings idMap rbList = .ok (out, orph)) :
    orph.Nodup ∧
    ∀ n : String, n ∈ orph ↔
      (n ∈ rbList.map (fun rb => rb.ns) ∧ ∀ rb2 ∈ out, rb2.ns ≠ n) := by
  cases hr : mutateGo idMap [] rbList with
  | error e =>
    rw [mutateTRB_eq_of_go_error idMap rbList e hr] at h
    cases h
  | ok p =>
    cases p with
    | mk l m =>
      rw [mutateTRB_eq_of_go_ok idMap rbList l m hr] at h
      injection h with h
      injection h with h1 h2
      subst h1
      subst h2
      have hnd : (m.map (fun p => p.1)).Nodup :=
        mutateGo_keys_nodup idMap rbList [] l m hr (by simp)
      refine ⟨orphansOf_nodup m hnd, ?_⟩
      intro n
      rw [mem_orphansOf_nodup m n hnd]
      have halo := mutateGo_alookup idMap rbList [] l m hr n
      have halo2 : alookup m n =
          if n ∈ rbList.map (fun rb => rb.ns) then some (nsCount l n)
          else none := by
        rw [halo]
        rfl
      rw [halo2]
      by_cases hmem : n ∈ rbList.map (fun rb => rb.ns)
      · rw [if_pos hmem]
        constructor
        · intro hv
          injection hv with hv
          exact ⟨hmem, (nsCount_eq_zero_iff l n).mp hv⟩
        · rintro ⟨_, hall⟩
          rw [(nsCount_eq_zero_iff l n).mpr hall]
      · rw [if_neg hmem]
        constructor
        · intro hv
          cases hv
        · rintro ⟨hmem2, _⟩
          exact absurd hmem2 hmem

/-- Witness for C5 at a concrete run with one orphan namespace. -/
theorem claim5_witness :
    (["team-b"] : List String).Nodup ∧
    ∀ n : String, n ∈ (["team-b"] : List String) ↔
      (n ∈ [c4RB].map (fun rb => rb.ns) ∧
        ∀ rb2 ∈ ([] : List RoleBinding), rb2.ns ≠ n) :=
  claim5_thm [] [c4RB] [] ["team-b"] rfl

/-! ## Claim C6 -/

/-- C6: cleanEmail strips a sub-address tag, sending a string of the shape
local+tag@domain to local@domain (stated for a local part free of the plus
and at signs, a nonempty tag free of the at sign, and a domain free of the
plus sign, the shape of a tagged address), and cleanEmail is idempotent on
every string whatsoever. -/
theorem claim6_thm :
    (∀ s : String, cleanEmail (cleanEmail s) = cleanEmail s) ∧
    (∀ loc tag dom : List Char, '+' ∉ loc → '@' ∉ loc → tag ≠ [] →
      '@' ∉ tag → '+' ∉ dom →
      cleanEmail (String.mk (loc ++ '+' :: (tag ++ '@' :: dom))) =
        String.mk (loc ++ '@' :: dom)) := by
  constructor
  · intro s
    exact congrArg String.mk (cleanEmailList_idem s.data)
  · intro loc tag dom h1 h2 h3 h4 h5
    exact congrArg String.mk (cleanEmailList_localTag loc tag dom h1 h2 h3 h4 h5)

/-- Witness for C6 at the concrete tagged address of the specification. -/
theorem claim6_witness :
    cleanEmail (cleanEmail "a+b@c") = cleanEmail "a+b@c" ∧
    cleanEmail (String.mk ("jdoe".data ++ '+' ::
        ("dev".data ++ '@' :: "redhat.com".data))) =
      String.mk ("jdoe".data ++ '@' :: "redhat.com".data) :=
  ⟨claim6_thm.1 "a+b@c",
   claim6_thm.2 "jdoe".data "dev".data "redhat.com".data (by decide) (by decide)
     (by decide) (by decide) (by decide)⟩

/-! ## Claim C7 -/

/-- C7: an account whose claims structure is missing or malformed (no spec
map, no propagatedClaims map, or no string email) contributes nothing to the
mapping: the run over a list containing it equals the run over the list with
it removed, so it is omitted, the run does not abort, and the remaining
accounts are still processed. -/
theorem claim7_thm (pre post : List UserAccount) (transform : String → String)
    (acct : UserAccount) (h : extractEmail acct = none) :
    buildIDMap (pre ++ acct :: post) transform =
      buildIDMap (pre ++ post) transform := by
  unfold buildIDMap
  rw [List.foldl_append, List.foldl_append, List.foldl_cons,
    buildStep_malformed transform _ acct h]

/-- Malformed account for the C7 witness: its spec field is not a map. -/
def c7Bad : UserAccount := { name := "broken", obj := [("spec", JValue.str "oops")] }

/-- Well-formed account resolving through the claims structure. -/
def c7Good : UserAccount :=
  { name := "jdoe",
    obj := [("spec", JValue.obj [("propagatedClaims",
      JValue.obj [("email", JValue.str "jdoe+dev@redhat.com")])])] }

/-- Witness for C7 at a concrete malformed account amid well-formed ones. -/
theorem claim7_witness :
    buildIDMap ([c7Good] ++ c7Bad :: [c7Good]) cleanEmail =
      buildIDMap ([c7Good] ++ [c7Good]) cleanEmail :=
  claim7_thm [c7Good] [c7Good] cleanEmail c7Bad rfl

/-! ## Claim C8 -/

/-- C8: the mapping built by buildIDMap never stores the empty string as a
value; entries exist only for accounts whose resolution produced a nonempty
identity. -/
theorem claim8_thm (userAccounts : List UserAccount)
    (transform : String → String) (p : String × String)
    (hp : p ∈ buildIDMap userAccounts transform) : p.2 ≠ "" :=
  buildIDMap_values_aux transform userAccounts [] (by simp) p hp

/-- Witness for C8 at a concrete resolved account. -/
theorem claim8_witness : (("jdoe", "jdoe@redhat.com") : String × String).2 ≠ "" :=
  claim8_thm [c7Good] cleanEmail ("jdoe", "jdoe@redhat.com") (by decide)

/-! ## Claim C9 -/

/-- C9: the transformation is deterministic: running it twice on the same
mapping and binding sequence gives equal results, and the result depends on
the mapping only through lookup, so any two representations of the same
mapping give identical migrated output. -/
theorem claim9_thm (idMap idMap2 : List (String × String))
    (rbList : List RoleBinding)
    (h : ∀ k, alookup idMap k = alookup idMap2 k) :
    mutateTenantRoleBindings idMap rbList =
      mutateTenantRoleBindings idMap rbList ∧
    mutateTenantRoleBindings idMap rbList =
      mutateTenantRoleBindings idMap2 rbList := by
  refine ⟨rfl, ?_⟩
  unfold mutateTenantRoleBindings
  rw [mutateGo_ext idMap idMap2 h rbList []]

/-- Witness for C9 at two different concrete representations of one map. -/
theorem claim9_witness :
    mutateTenantRoleBindings [("jdoe", "x"), ("jdoe", "y")] [c4RB] =
      mutateTenantRoleBindings [("jdoe", "x")] [c4RB] :=
  (claim9_thm [("jdoe", "x"), ("jdoe", "y")] [("jdoe", "x")] [c4RB]
    (fun k => by by_cases hk : "jdoe" = k <;> simp [alookup, hk])).2

/-! ## Claim C10 -/

/-- C10: the multi-subject check guards only the more-than-one case, so a
binding with an empty subject list reaches the unguarded access to the first
subject, embedded as the noSubject error: the loop on such a binding always
takes that error branch, and any run whose input contains a zero-subject
binding ends in an error, never in a migrated output; totality thus needs
every binding to have at least one subject. -/
theorem claim10_thm :
    (∀ (idMap : List (String × String)) (m : List (String × Nat))
      (rb : RoleBinding) (rest : List RoleBinding), rb.subjects = [] →
      mutateGo idMap m (rb :: rest) = .error (.noSubject rb.name rb.ns)) ∧
    (∀ (idMap : List (String × String)) (rbList : List RoleBinding),
      (∃ rb ∈ rbList, rb.subjects = []) →
      ∃ e, mutateTenantRoleBindings idMap rbList = .error e) := by
  constructor
  · exact fun idMap m rb rest h => mutateGo_cons_zero idMap m rb rest h
  · intro idMap rbList h
    cases hr : mutateGo idMap [] rbList with
    | error e => exact ⟨e, mutateTRB_eq_of_go_error idMap rbList e hr⟩
    | ok p =>
      cases p with
      | mk l m =>
        rcases h with ⟨rb, hmem, hzero⟩
        rcases mutateGo_ok_all idMap rbList [] l m hr rb hmem with ⟨s, hs⟩
        rw [hzero] at hs
        cases hs

/-- Concrete zero-subject binding for the C10 witness. -/
def c10RB : RoleBinding := { mkRB "t0" "b0" "u0" "r0" with subjects := [] }

/-- Witness for C10 at a concrete zero-subject input. -/
theorem claim10_witness :
    mutateGo [] [] [c10RB] = .error (.noSubject c10RB.name c10RB.ns) ∧
    ∃ e, mutateTenantRoleBindings [] [c10RB] = .error e :=
  ⟨claim10_thm.1 [] [] c10RB [] rfl,
   claim10_thm.2 [] [c10RB] ⟨c10RB, List.mem_singleton.mpr rfl, rfl⟩⟩
